import Mathlib

/-!
Verification development for the forward-model conditioning pipeline of
`heart.py` (beat repository).  Python floats are modelled by `ℚ`, numpy
matrices by `List (List ℚ)`, and the Gaussian draws of the perturber by an
explicit tape of standard-normal samples: `numpy.random.normal(0, s)` is
modelled as `z * s` for the next tape element `z` (exact for `s = 0`, and
the scaling property of the normal distribution in general).
-/

namespace Heart

def km : ℚ := 1000

/-! ### Matrices (numpy arrays of shape (n, m)) -/

/-- `num.zeros_like(m)`: a zero matrix of the same shape as `m`. -/
def zeros_like (m : List (List ℚ)) : List (List ℚ) :=
  m.map (fun r => r.map (fun _ => (0 : ℚ)))

/-- Element-wise matrix addition (numpy `+` on equal-shape arrays). -/
def matAdd (a b : List (List ℚ)) : List (List ℚ) :=
  List.zipWith (fun ra rb => List.zipWith (fun x y => x + y) ra rb) a b

/-- Entry access with the usual out-of-range default. -/
def entry (m : List (List ℚ)) (i j : Nat) : ℚ :=
  (m.getD i []).getD j 0

/-- The shape of a matrix: its list of row lengths. -/
def shape (m : List (List ℚ)) : List Nat := m.map List.length

/-! ### Covariance (heart.py lines 166-210) -/

/-- State of a `Covariance` object: the three optional component matrices. -/
structure Covariance where
  data : Option (List (List ℚ))
  pred_g : Option (List (List ℚ))
  pred_v : Option (List (List ℚ))
deriving DecidableEq, Repr

/-- The `total` property of `Covariance`.  Reading it first assigns
`num.zeros_like(self.data)` to any unset prediction component (a side effect
on the object), then returns `self.data + self.pred_g + self.pred_v`.
Returns the updated object together with the value; `none` models the crash
when `data` is unset (`num.zeros_like(None)` / array addition fails). -/
def Covariance.total_read (cv : Covariance) : Option (Covariance × List (List ℚ)) :=
  match cv.data with
  | none => none
  | some d =>
    let pg := match cv.pred_g with
      | none => zeros_like d
      | some m => m
    let pv := match cv.pred_v with
      | none => zeros_like d
      | some m => m
    some ({ data := some d, pred_g := some pg, pred_v := some pv },
          matAdd (matAdd d pg) pv)

/-- Entry of an optional prediction component as it enters the sum:
an unset component contributes the zero matrix shaped like `d`. -/
def optEntry (o : Option (List (List ℚ))) (d : List (List ℚ)) (i j : Nat) : ℚ :=
  entry (match o with | none => zeros_like d | some m => m) i j

/-! ### Water-layer remediation in `seis_construct_gf` (lines 520-539) -/

/-- The three crust2x2 layer thicknesses touched by the remediation,
plus the profile elevation. -/
structure Crust2Profile where
  thickness_lwater : ℚ
  thickness_lsoftsed : ℚ
  thickness_llowercrust : ℚ
  elevation : ℚ
deriving DecidableEq, Repr

/-- Water-layer remediation of `seis_construct_gf`: when the water layer is
strictly positive, zero it, set the soft-sediment thickness to
`num.ceil(soft / 3)`, add `water + (soft - num.ceil(soft / 3))` to the
lower crust, and zero the elevation. -/
def remediate_water_layer (p : Crust2Profile) : Crust2Profile :=
  if p.thickness_lwater > 0 then
    { thickness_lwater := 0,
      thickness_lsoftsed := ((⌈p.thickness_lsoftsed / 3⌉ : ℤ) : ℚ),
      thickness_llowercrust := p.thickness_llowercrust + p.thickness_lwater +
        (p.thickness_lsoftsed - ((⌈p.thickness_lsoftsed / 3⌉ : ℤ) : ℚ)),
      elevation := 0 }
  else p

/-- Modelled from the spec: remediation as the spec sentence states it,
"zero the water layer thickness, halve-and-redistribute a soft-sediment
layer, and add the remainder to the lower-crust layer"; used only to
compare against the behaviour of the code. -/
def remediate_water_layer_halved (p : Crust2Profile) : Crust2Profile :=
  if p.thickness_lwater > 0 then
    { thickness_lwater := 0,
      thickness_lsoftsed := p.thickness_lsoftsed / 2,
      thickness_llowercrust := p.thickness_llowercrust + p.thickness_lwater +
        p.thickness_lsoftsed / 2,
      elevation := 0 }
  else p

/-! ### Phase arrival time and taper (lines 792-822) -/

/-- Source attributes used by `get_phase_arrival_time`. -/
structure SeisSource where
  depth : ℚ
  time : ℚ

/-- Target attributes used by `get_phase_arrival_time`.  `codes` is the
(network, station, location, channel) tuple; `distance_to` is the inherited
pyrocko geometry method, kept abstract as a function of the source. -/
structure SeisTarget where
  codes : String × String × String × String
  store_id : String
  distance_to : SeisSource → ℚ

/-- The engine: `engine.get_store(store_id).t(wave, (depth, dist))`,
kept abstract as a travel-time table. -/
def Engine : Type := String → String → ℚ → ℚ → ℚ

/-- `get_phase_arrival_time`: channel `T` selects the tabulated shear
phase `any_S`, channel `Z` the compressional phase `any_P`; any other
channel raises.  On success the travel time at
`(source.depth, target.distance_to(source))` is offset by `source.time`. -/
def get_phase_arrival_time (engine : Engine) (source : SeisSource)
    (target : SeisTarget) : Except String ℚ :=
  let dist := target.distance_to source
  let depth := source.depth
  if target.codes.2.2.2 = "T" then
    Except.ok (engine target.store_id ("any_S") depth dist + source.time)
  else if target.codes.2.2.2 = "Z" then
    Except.ok (engine target.store_id ("any_P") depth dist + source.time)
  else
    Except.error ("Channel not supported! Either: T or Z")

/-- The four offsets of an `ArrivalTaper` (seconds before/after arrival). -/
structure ArrivalTaper where
  a : ℚ := 15
  b : ℚ := 10
  c : ℚ := 50
  d : ℚ := 55
deriving DecidableEq, Repr

/-- The four absolute window times of a `trace.CosTaper`. -/
structure CosTaper where
  ta : ℚ
  tb : ℚ
  tc : ℚ
  td : ℚ
deriving DecidableEq, Repr

/-- `get_phase_taperer`: builds
`CosTaper(t - a, t - b, t + c, t + d)` around the computed arrival `t`;
an arrival-time error propagates. -/
def get_phase_taperer (engine : Engine) (source : SeisSource)
    (target : SeisTarget) (arrival_taper : ArrivalTaper) : Except String CosTaper :=
  match get_phase_arrival_time engine source target with
  | Except.error e => Except.error e
  | Except.ok t =>
    Except.ok { ta := t - arrival_taper.a, tb := t - arrival_taper.b,
                tc := t + arrival_taper.c, td := t + arrival_taper.d }

/-! ### Stacking in `seis_synthetics` (lines 866-887)

After tapering and filtering, the per-(source, target) trace samples form
the matrix `synths` with `ns * nt` rows (source-major).  The stacking code
is, literally:

    if ns > 1:
        for k in range(ns):
            outstack = num.zeros([nt, synths.shape[1]])
            outstack += synths[(k * nt):(k + 1) * nt, :]
    else:
        outstack = synths
-/

/-- The stacking step of `seis_synthetics`, exactly as the source performs
it: note that the accumulator is re-initialised to zeros inside the loop. -/
def seis_synthetics_stack (ns nt : Nat) (synths : List (List ℚ)) : List (List ℚ) :=
  let w := (synths.headD []).length
  if ns > 1 then
    (List.range ns).foldl
      (fun _ k =>
        matAdd (List.replicate nt (List.replicate w (0 : ℚ)))
          ((synths.drop (k * nt)).take nt))
      []
  else synths

/-- Modelled from the spec: the intended stack, summing the per-source
blocks element-wise for each target (accumulator initialised once). -/
def seis_synthetics_stack_spec (ns nt : Nat) (synths : List (List ℚ)) :
    List (List ℚ) :=
  let w := (synths.headD []).length
  if ns > 1 then
    (List.range ns).foldl
      (fun acc k => matAdd acc ((synths.drop (k * nt)).take nt))
      (List.replicate nt (List.replicate w (0 : ℚ)))
  else synths

/-! ### `vary_model` (lines 368-478)

A cake layer is either a `GradientLayer` (distinct top and bottom
materials) or a homogeneous layer, whose `mtop` and `mbot` are the *same*
material object in pyrocko — so an in-place update through one view is
seen through the other.  The update helpers below encode that aliasing.
-/

/-- A cake material; only the fields touched by `vary_model`. -/
structure Material where
  vp : ℚ
  vs : ℚ
deriving DecidableEq, Repr

/-- A cake layer; `grad = true` for `GradientLayer`, otherwise a
homogeneous layer whose two material views are aliased. -/
structure Layer where
  ztop : ℚ
  zbot : ℚ
  mtop : Material
  mbot : Material
  grad : Bool
deriving DecidableEq, Repr

/-- `m.vp += dv; m.vs += dv / m.vp_vs_ratio()` — the ratio `vp / vs` is
taken after the `vp` update, as in the source. -/
def Material.addVel (m : Material) (dv : ℚ) : Material :=
  let vp := m.vp + dv
  { vp := vp, vs := m.vs + dv / (vp / m.vs) }

/-- `layer.mtop.vp += dv` (line 427); through aliasing this also updates
`mbot` of a homogeneous layer. -/
def Layer.bumpMtopVp (l : Layer) (dv : ℚ) : Layer :=
  if l.grad then
    { l with mtop := { l.mtop with vp := l.mtop.vp + dv } }
  else
    let m := { l.mtop with vp := l.mtop.vp + dv }
    { l with mtop := m, mbot := m }

/-- Acceptance update of the interface branch (lines 444-448): update
`mtop`, and `mbot` as well for a gradient layer; for a homogeneous layer
the single material is updated once and seen through both views. -/
def Layer.acceptVelTop (l : Layer) (dv : ℚ) : Layer :=
  if l.grad then
    { l with mtop := l.mtop.addVel dv, mbot := l.mbot.addVel dv }
  else
    let m := l.mtop.addVel dv
    { l with mtop := m, mbot := m }

/-- Acceptance update of the gradient-continuation branch (lines 436-438):
update `mbot`; for a homogeneous layer aliasing updates both views. -/
def Layer.acceptVelBot (l : Layer) (dv : ℚ) : Layer :=
  if l.grad then
    { l with mbot := l.mbot.addVel dv }
  else
    let m := l.mbot.addVel dv
    { l with mtop := m, mbot := m }

/-- The hardcoded mantle velocity-uncertainty override (lines 394-420),
iterating the dict in insertion order: above 200 km depth use 0.02,
above 400 km use 0.01. -/
def mantleOverride (ztop errVel : ℚ) : ℚ :=
  let e := if 200 * km < ztop then (2 / 100 : ℚ) else errVel
  if 400 * km < ztop then (1 / 100 : ℚ) else e

/-- Python `'%i' %` truncation of `zbot / km` toward zero. -/
def pyTruncKm (zbot : ℚ) : ℤ :=
  if 0 ≤ zbot then ⌊zbot / km⌋ else ⌈zbot / km⌉

/-- The hardcoded discontinuity depth uncertainties (lines 389-391). -/
def discontUnc (k : ℤ) : Option ℚ :=
  if k = 410 then some (3 * km)
  else if k = 520 then some (4 * km)
  else if k = 660 then some (8 * km)
  else none

/-- `factor_d` selection (lines 458-462). -/
def factorD (l : Layer) (errDepth : ℚ) : ℚ :=
  match discontUnc (pyTruncKm l.zbot) with
  | some u => u / l.zbot
  | none => errDepth

/-- The velocity-perturbation `while` loop (lines 410-452).  Arguments are
the mutable locals; the tape supplies one standard-normal draw per
iteration.  Returns the layer, the (possibly overridden) working
`err_velocities`, the cost, the retry counter, and the remaining tape;
`none` when the tape is exhausted. -/
def velLoop (l : Layer) (last : Option Layer) (errVel : ℚ) (cost count : Nat)
    (tape : List ℚ) : Option (Layer × ℚ × Nat × Nat × List ℚ) :=
  if count > 1000 then some (l, errVel, cost, count, tape)
  else
    match tape with
    | [] => none
    | z :: tape' =>
      let errVel := mantleOverride l.ztop errVel
      let deltavp := z * (l.mtop.vp * errVel / 3)
      let l := if l.ztop = 0 then l.bumpMtopVp deltavp else l
      match last with
      | none => some (l, errVel, cost, count, tape')
      | some ll =>
        if l.mtop.vp = ll.mbot.vp then
          if l.mbot.vp + deltavp < l.mtop.vp then
            velLoop l last errVel cost (count + 1) tape'
          else
            some (l.acceptVelBot deltavp, errVel, cost + count, count, tape')
        else if l.mtop.vp + deltavp < ll.mbot.vp then
          velLoop l last errVel cost (count + 1) tape'
        else
          some (l.acceptVelTop deltavp, errVel, cost + count, count, tape')

/-- The depth-perturbation `while` loop (lines 464-474).  Returns the
layer, the accepted `deltaz`, the cost, the final retry counter, and the
remaining tape. -/
def depthLoop (l : Layer) (factor : ℚ) (cost count : Nat) (tape : List ℚ) :
    Option (Layer × ℚ × Nat × Nat × List ℚ) :=
  match tape with
  | [] => none
  | z :: tape' =>
    let deltaz := z * (l.zbot * factor / 3)
    if l.zbot + deltaz < l.ztop then
      depthLoop l factor cost (count + 1) tape'
    else
      some ({ l with zbot := l.zbot + deltaz }, deltaz, cost + count, count, tape')

/-- Python truthiness of `depth_limit` combined with the truncation test
`layer.ztop >= depth_limit`. -/
def dlGuard (dl : Option ℚ) (ztop : ℚ) : Bool :=
  match dl with
  | none => false
  | some d => if d = 0 then false else decide (d ≤ ztop)

/-- Result of a `vary_model` pass.  `vRej`, `dRej`, `vbroke` and `dlbroke`
are specification ghosts absent from the source: the total number of
rejected velocity and depth draws, whether some velocity loop exited
through its 1000-retry break, and whether the depth-limit truncation
fired.  They do not influence the computation. -/
structure RunOut where
  layers : List Layer
  cost : Nat
  tape : List ℚ
  vRej : Nat
  dRej : Nat
  vbroke : Bool
  dlbroke : Bool
deriving DecidableEq, Repr

/-- The per-layer `for` loop of `vary_model` (lines 397-476). -/
def layersLoop (errDepth : ℚ) (dl : Option ℚ) (ls : List Layer)
    (last : Option Layer) (errVel : ℚ) (cost : Nat) (deltaz : ℚ)
    (tape : List ℚ) : Option RunOut :=
  match ls with
  | [] => some ⟨[], cost, tape, 0, 0, false, false⟩
  | layer :: rest =>
    if dlGuard dl layer.ztop then
      match last with
      | none => none
      | some ll =>
        let layer := { layer with ztop := ll.zbot }
        let cost :=
          if layer.mtop.vp < ll.mtop.vp ∨ layer.mbot.vp < layer.mtop.vp then
            1000 else cost
        let cost := if layer.zbot < layer.ztop then 1000 else cost
        some ⟨layer :: rest, cost, tape, 0, 0, false, true⟩
    else
      match velLoop layer last errVel cost 0 tape with
      | none => none
      | some (l1, errVel', cost1, count1, tape1) =>
        let l2 := { l1 with ztop := l1.ztop + deltaz }
        match depthLoop l2 (factorD l2 errDepth) cost1 count1 tape1 with
        | none => none
        | some (l3, deltaz', cost2, count2, tape2) =>
          match layersLoop errDepth dl rest (some l3) errVel' cost2 deltaz' tape2 with
          | none => none
          | some out =>
            some ⟨l3 :: out.layers, out.cost, out.tape,
                  count1 + out.vRej, (count2 - count1) + out.dRej,
                  (decide (count1 > 1000)) || out.vbroke, out.dlbroke⟩

/-- `vary_model(earthmod, err_depth, err_velocities, depth_limit)` on the
given random tape. -/
def vary_model (em : List Layer) (errDepth errVel : ℚ) (dl : Option ℚ)
    (tape : List ℚ) : Option RunOut :=
  layersLoop errDepth dl em none errVel 0 0 tape

/-- The rejection loop of `ensemble_earthmodel` (lines 490-503), with an
explicit fuel bound on the number of `vary_model` calls (`none` when fuel
or tape runs out). -/
def ensembleLoop (ref : List Layer) (errDepth errVel : ℚ) (dl : Option ℚ)
    (numVary : Nat) : Nat → Nat → List (List Layer) → List ℚ →
    Option (List (List Layer) × List ℚ)
  | fuel, i, acc, tape =>
    if i < numVary then
      match fuel with
      | 0 => none
      | fuel + 1 =>
        match vary_model ref errDepth errVel dl tape with
        | none => none
        | some out =>
          if out.cost > 20 then
            ensembleLoop ref errDepth errVel dl numVary fuel i acc out.tape
          else
            ensembleLoop ref errDepth errVel dl numVary fuel (i + 1)
              (acc ++ [out.layers]) out.tape
    else some (acc, tape)

/-- `ensemble_earthmodel(ref_earthmod, num_vary, err_depth,
err_velocities, depth_limit)`. -/
def ensemble_earthmodel (ref : List Layer) (numVary : Nat)
    (errDepth errVel : ℚ) (dl : Option ℚ) (fuel : Nat) (tape : List ℚ) :
    Option (List (List Layer)) :=
  (ensembleLoop ref errDepth errVel dl numVary fuel 0 [] tape).map
    (fun p => p.1)

/-- The sequence of `(variant, cost)` results of successive `vary_model`
calls along the tape (at most `fuel` calls). -/
def varyRuns (ref : List Layer) (errDepth errVel : ℚ) (dl : Option ℚ) :
    Nat → List ℚ → List (List Layer × Nat)
  | 0, _ => []
  | fuel + 1, tape =>
    match vary_model ref errDepth errVel dl tape with
    | none => []
    | some out => (out.layers, out.cost) :: varyRuns ref errDepth errVel dl fuel out.tape

/-- The accepted variants (cost at most 20) among `varyRuns`, in order. -/
def acceptedRuns (ref : List Layer) (errDepth errVel : ℚ) (dl : Option ℚ)
    (fuel : Nat) (tape : List ℚ) : List (List Layer) :=
  ((varyRuns ref errDepth errVel dl fuel tape).filter
    (fun p => decide (p.2 ≤ 20))).map Prod.fst

/-- Material well-formedness of a layer as the velocity loop needs it: a
homogeneous layer has aliased (hence equal) material views, and a gradient
layer does not sit at the surface and is internally non-decreasing. -/
def velWF (l : Layer) : Prop :=
  (l.grad = false → l.mtop = l.mbot) ∧
  (l.grad = true → l.ztop ≠ 0 ∧ l.mtop.vp ≤ l.mbot.vp)

instance (l : Layer) : Decidable (velWF l) := by
  unfold velWF; infer_instance

/-- Well-formedness of a reference layer for the amended monotonicity
claim: it is not truncated by the depth limit, and `velWF` holds. -/
def layerWF (dl : Option ℚ) (l : Layer) : Prop :=
  dlGuard dl l.ztop = false ∧ velWF l

instance (dl : Option ℚ) (l : Layer) : Decidable (layerWF dl l) := by
  unfold layerWF; infer_instance

/-- Well-formedness of a reference layer for the amended zero-error
identity claim: it lies above the 200 km velocity-override band and the
410 km discontinuity band, has ordered depths, aliased materials when
homogeneous, and non-decreasing velocity. -/
def zeroWF (l : Layer) : Prop :=
  l.ztop ≤ 200 * km ∧ l.zbot < 410 * km ∧ l.ztop ≤ l.zbot ∧
  (l.grad = false → l.mtop = l.mbot) ∧ l.mtop.vp ≤ l.mbot.vp

instance (l : Layer) : Decidable (zeroWF l) := by
  unfold zeroWF; infer_instance

/-! ### Concrete inputs used by counterexamples and witnesses -/

/-- A trivial travel-time table. -/
def engine0 : Engine := fun _ _ _ _ => 0

/-- A target on the vertical component. -/
def target_Z : SeisTarget :=
  { codes := ("", "", "0", "Z"), store_id := "st", distance_to := fun _ => 0 }

/-- A single homogeneous reference layer whose bottom sits at the 410 km
discontinuity. -/
def em410 : List Layer :=
  [{ ztop := 100000, zbot := 410000, mtop := ⟨5, 3⟩, mbot := ⟨5, 3⟩, grad := false }]

/-- A well-formed shallow two-layer homogeneous reference model. -/
def emW : List Layer :=
  [{ ztop := 0, zbot := 1000, mtop := ⟨5, 3⟩, mbot := ⟨5, 3⟩, grad := false },
   { ztop := 1000, zbot := 2000, mtop := ⟨6, 7/2⟩, mbot := ⟨6, 7/2⟩, grad := false }]

/-- A single gradient layer at the surface. -/
def emG : List Layer :=
  [{ ztop := 0, zbot := 10000, mtop := ⟨5, 3⟩, mbot := ⟨51/10, 3⟩, grad := true }]

/-- The perturbed surface gradient layer produced from `emG` by the tape
`[1, 0]` with `err_velocities = 3/10`: the top velocity was bumped above
the bottom velocity. -/
def emG' : List Layer :=
  [{ ztop := 0, zbot := 10000, mtop := ⟨11/2, 3⟩, mbot := ⟨51/10, 3⟩, grad := true }]

/-- The run of `vary_model emW 0 0 (some 600000) [0, 0, 0, 0]`. -/
def outW : RunOut :=
  { layers := emW, cost := 0, tape := [], vRej := 0, dRej := 0,
    vbroke := false, dlbroke := false }

/-- The run of `vary_model emW 0 1 (some 600000) [0, 0, -1, 0, 0]`:
one rejected velocity draw, no rejected depth draw, cost 2. -/
def outC4 : RunOut :=
  { layers := emW, cost := 2, tape := [], vRej := 1, dRej := 0,
    vbroke := false, dlbroke := false }

/-- The layer of `em410` after the zero-error run on tape `[0, 1]`: the
hardcoded 410 km discontinuity uncertainty moved the bottom depth. -/
def em410' : List Layer :=
  [{ ztop := 100000, zbot := 411000, mtop := ⟨5, 3⟩, mbot := ⟨5, 3⟩, grad := false }]

end Heart

namespace Heart

/-! ### Helper lemmas -/

theorem shape_zeros_like (d : List (List ℚ)) : shape (zeros_like d) = shape d := by
  simp [shape, zeros_like]

theorem matAdd_zeros_like (d : List (List ℚ)) : matAdd d (zeros_like d) = d := by
  induction d with
  | nil => rfl
  | cons r rs ih =>
    simp only [matAdd, zeros_like, List.map_cons, List.zipWith_cons_cons] at *
    refine (List.cons_eq_cons).2 ⟨?_, ih⟩
    induction r with
    | nil => rfl
    | cons x xs ihr => simpa [List.zipWith_cons_cons] using ihr

theorem rowAdd_getD (ra : List ℚ) : ∀ rb : List ℚ, ra.length = rb.length →
    ∀ j, (List.zipWith (fun x y => x + y) ra rb).getD j 0 =
      ra.getD j 0 + rb.getD j 0 := by
  induction ra with
  | nil =>
    intro rb h j
    cases rb with
    | nil => simp
    | cons y ys => simp at h
  | cons x xs ih =>
    intro rb h j
    cases rb with
    | nil => simp at h
    | cons y ys =>
      cases j with
      | zero => simp
      | succ j =>
        simp only [List.zipWith_cons_cons, List.getD_cons_succ]
        exact ih ys (by simpa using h) j

theorem shape_matAdd (a : List (List ℚ)) : ∀ b, shape a = shape b →
    shape (matAdd a b) = shape a := by
  induction a with
  | nil => intro b _; rfl
  | cons r rs ih =>
    intro b h
    cases b with
    | nil => simp [shape] at h
    | cons s bs =>
      simp only [shape, List.map_cons, List.cons_eq_cons] at h
      simp only [matAdd, List.zipWith_cons_cons, shape, List.map_cons]
      refine (List.cons_eq_cons).2 ⟨?_, ?_⟩
      · simp [h.1]
      · exact ih bs h.2

theorem entry_matAdd (a : List (List ℚ)) : ∀ b, shape a = shape b →
    ∀ i j, entry (matAdd a b) i j = entry a i j + entry b i j := by
  induction a with
  | nil =>
    intro b h i j
    cases b with
    | nil => simp [matAdd, entry]
    | cons s bs => simp [shape] at h
  | cons r rs ih =>
    intro b h i j
    cases b with
    | nil => simp [shape] at h
    | cons s bs =>
      simp only [shape, List.map_cons, List.cons_eq_cons] at h
      cases i with
      | zero =>
        simp only [matAdd, List.zipWith_cons_cons, entry, List.getD_cons_zero]
        exact rowAdd_getD r s h.1 j
      | succ i =>
        simp only [matAdd, List.zipWith_cons_cons, entry, List.getD_cons_succ]
        exact ih bs h.2 i j

/-! ### Velocity-loop lemmas -/

theorem velWF_within (l : Layer) (h : velWF l) : l.mtop.vp ≤ l.mbot.vp := by
  cases hg : l.grad with
  | false => exact le_of_eq (congrArg Material.vp (h.1 hg))
  | true => exact (h.2 hg).2

theorem addVel_vp (m : Material) (dv : ℚ) : (m.addVel dv).vp = m.vp + dv := rfl

theorem bumpMtopVp_geom (l : Layer) (dv : ℚ) :
    (l.bumpMtopVp dv).ztop = l.ztop ∧ (l.bumpMtopVp dv).zbot = l.zbot ∧
      (l.bumpMtopVp dv).grad = l.grad := by
  unfold Layer.bumpMtopVp
  split <;> exact ⟨rfl, rfl, rfl⟩

theorem acceptVelTop_geom (l : Layer) (dv : ℚ) :
    (l.acceptVelTop dv).ztop = l.ztop ∧ (l.acceptVelTop dv).zbot = l.zbot ∧
      (l.acceptVelTop dv).grad = l.grad := by
  unfold Layer.acceptVelTop
  split <;> exact ⟨rfl, rfl, rfl⟩

theorem acceptVelBot_geom (l : Layer) (dv : ℚ) :
    (l.acceptVelBot dv).ztop = l.ztop ∧ (l.acceptVelBot dv).zbot = l.zbot ∧
      (l.acceptVelBot dv).grad = l.grad := by
  unfold Layer.acceptVelBot
  split <;> exact ⟨rfl, rfl, rfl⟩

theorem bumpMtopVp_velWF (l : Layer) (dv : ℚ) (h : velWF l) (hz : l.ztop = 0) :
    velWF (l.bumpMtopVp dv) := by
  cases hg : l.grad with
  | true => exact absurd hz (h.2 hg).1
  | false =>
    constructor
    · intro _
      simp [Layer.bumpMtopVp, hg]
    · intro hg'
      rw [(bumpMtopVp_geom l dv).2.2, hg] at hg'
      cases hg'

theorem acceptVelBot_facts (l ll : Layer) (dv : ℚ) (h : velWF l)
    (heq : l.mtop.vp = ll.mbot.vp) (hge : ¬ l.mbot.vp + dv < l.mtop.vp) :
    velWF (l.acceptVelBot dv) ∧
    (l.acceptVelBot dv).mtop.vp ≤ (l.acceptVelBot dv).mbot.vp ∧
    ll.mbot.vp ≤ (l.acceptVelBot dv).mtop.vp := by
  push_neg at hge
  cases hg : l.grad with
  | true =>
    have hz := (h.2 hg).1
    refine ⟨⟨fun hf => ?_, fun _ => ⟨?_, ?_⟩⟩, ?_, ?_⟩
    · rw [(acceptVelBot_geom l dv).2.2, hg] at hf
      cases hf
    · rw [(acceptVelBot_geom l dv).1]
      exact hz
    · simp [Layer.acceptVelBot, hg, Material.addVel]
      linarith
    · simp [Layer.acceptVelBot, hg, Material.addVel]
      linarith
    · simp [Layer.acceptVelBot, hg, Material.addVel]
      linarith
  | false =>
    have hm := h.1 hg
    refine ⟨⟨fun _ => ?_, fun hg' => ?_⟩, ?_, ?_⟩
    · simp [Layer.acceptVelBot, hg]
    · rw [(acceptVelBot_geom l dv).2.2, hg] at hg'
      cases hg'
    · simp [Layer.acceptVelBot, hg]
    · simp [Layer.acceptVelBot, hg, Material.addVel]
      linarith [heq, hge, congrArg Material.vp hm]

theorem acceptVelTop_facts (l ll : Layer) (dv : ℚ) (h : velWF l)
    (hge : ¬ l.mtop.vp + dv < ll.mbot.vp) :
    velWF (l.acceptVelTop dv) ∧
    (l.acceptVelTop dv).mtop.vp ≤ (l.acceptVelTop dv).mbot.vp ∧
    ll.mbot.vp ≤ (l.acceptVelTop dv).mtop.vp := by
  push_neg at hge
  have hwithin := velWF_within l h
  cases hg : l.grad with
  | true =>
    have hz := (h.2 hg).1
    refine ⟨⟨fun hf => ?_, fun _ => ⟨?_, ?_⟩⟩, ?_, ?_⟩
    · rw [(acceptVelTop_geom l dv).2.2, hg] at hf
      cases hf
    · rw [(acceptVelTop_geom l dv).1]
      exact hz
    · simp [Layer.acceptVelTop, hg, Material.addVel]
      linarith
    · simp [Layer.acceptVelTop, hg, Material.addVel]
      linarith
    · simp [Layer.acceptVelTop, hg, Material.addVel]
      linarith
  | false =>
    refine ⟨⟨fun _ => ?_, fun hg' => ?_⟩, ?_, ?_⟩
    · simp [Layer.acceptVelTop, hg]
    · rw [(acceptVelTop_geom l dv).2.2, hg] at hg'
      cases hg'
    · simp [Layer.acceptVelTop, hg]
    · simp [Layer.acceptVelTop, hg, Material.addVel]
      linarith

theorem velLoop_mono : ∀ (tape : List ℚ) (l : Layer) (last : Option Layer)
    (e : ℚ) (c k : Nat) (l' : Layer) (e' : ℚ) (c' k' : Nat) (t' : List ℚ),
    velLoop l last e c k tape = some (l', e', c', k', t') →
    c ≤ c' ∧ k ≤ k' := by
  intro tape
  induction tape with
  | nil =>
    intro l last e c k l' e' c' k' t' h
    rw [velLoop] at h
    split at h
    · simp only [Option.some.injEq, Prod.mk.injEq] at h
      omega
    · cases h
  | cons z rest ih =>
    intro l last e c k l' e' c' k' t' h
    rw [velLoop] at h
    split at h
    · simp only [Option.some.injEq, Prod.mk.injEq] at h
      omega
    · simp only [] at h
      repeat' split at h
      all_goals
        first
          | (simp only [Option.some.injEq, Prod.mk.injEq] at h; omega)
          | (have hm := ih _ _ _ _ _ _ _ _ _ _ h; omega)

theorem velLoop_cost : ∀ (tape : List ℚ) (l : Layer) (last : Option Layer)
    (e : ℚ) (c k : Nat) (l' : Layer) (e' : ℚ) (c' k' : Nat) (t' : List ℚ),
    velLoop l last e c k tape = some (l', e', c', k', t') → k' ≤ 1000 →
    c' = c + k' ∨ (last = none ∧ c' = c ∧ k' = k) := by
  intro tape
  induction tape with
  | nil =>
    intro l last e c k l' e' c' k' t' h h1000
    rw [velLoop] at h
    split at h
    · simp only [Option.some.injEq, Prod.mk.injEq] at h
      omega
    · cases h
  | cons z rest ih =>
    intro l last e c k l' e' c' k' t' h h1000
    rw [velLoop] at h
    split at h
    · simp only [Option.some.injEq, Prod.mk.injEq] at h
      omega
    · simp only [] at h
      set dv := z * (l.mtop.vp * mantleOverride l.ztop e / 3) with hdv
      set l1 := if l.ztop = 0 then l.bumpMtopVp dv else l with hl1
      cases last with
      | none =>
        simp only [Option.some.injEq, Prod.mk.injEq] at h
        right
        exact ⟨rfl, h.2.2.1.symm, h.2.2.2.1.symm⟩
      | some ll =>
        simp only [] at h
        split at h
        · split at h
          · rcases ih _ _ _ _ _ _ _ _ _ _ h h1000 with h1 | h1
            · left; exact h1
            · cases h1.1
          · simp only [Option.some.injEq, Prod.mk.injEq] at h
            left
            omega
        · split at h
          · rcases ih _ _ _ _ _ _ _ _ _ _ h h1000 with h1 | h1
            · left; exact h1
            · cases h1.1
          · simp only [Option.some.injEq, Prod.mk.injEq] at h
            left
            omega

theorem velLoop_facts : ∀ (tape : List ℚ) (l : Layer) (last : Option Layer)
    (e : ℚ) (c k : Nat) (l' : Layer) (e' : ℚ) (c' k' : Nat) (t' : List ℚ),
    velLoop l last e c k tape = some (l', e', c', k', t') →
    velWF l → k' ≤ 1000 →
    l'.ztop = l.ztop ∧ l'.zbot = l.zbot ∧ l'.grad = l.grad ∧ velWF l' ∧
    l'.mtop.vp ≤ l'.mbot.vp ∧
    (∀ ll, last = some ll → ll.mbot.vp ≤ l'.mtop.vp) := by
  intro tape
  induction tape with
  | nil =>
    intro l last e c k l' e' c' k' t' h hwf h1000
    rw [velLoop] at h
    split at h
    · simp only [Option.some.injEq, Prod.mk.injEq] at h
      exfalso
      omega
    · cases h
  | cons z rest ih =>
    intro l last e c k l' e' c' k' t' h hwf h1000
    rw [velLoop] at h
    split at h
    · simp only [Option.some.injEq, Prod.mk.injEq] at h
      exfalso
      omega
    · simp only [] at h
      set dv := z * (l.mtop.vp * mantleOverride l.ztop e / 3) with hdv
      set l1 := if l.ztop = 0 then l.bumpMtopVp dv else l with hl1
      have hgeo1 : l1.ztop = l.ztop ∧ l1.zbot = l.zbot ∧ l1.grad = l.grad := by
        rw [hl1]
        split
        · exact bumpMtopVp_geom l dv
        · exact ⟨rfl, rfl, rfl⟩
      have hwf1 : velWF l1 := by
        rw [hl1]
        split
        case isTrue hz => exact bumpMtopVp_velWF l dv hwf hz
        case isFalse hz => exact hwf
      cases last with
      | none =>
        simp only [Option.some.injEq, Prod.mk.injEq] at h
        obtain ⟨hl, -, -, -, -⟩ := h
        subst hl
        refine ⟨hgeo1.1, hgeo1.2.1, hgeo1.2.2, hwf1, velWF_within _ hwf1, ?_⟩
        intro ll hll
        cases hll
      | some ll =>
        simp only [] at h
        split at h
        case isTrue heq =>
          split at h
          case isTrue hlt =>
            obtain ⟨g1, g2, g3, g4, g5, g6⟩ := ih _ _ _ _ _ _ _ _ _ _ h hwf1 h1000
            refine ⟨g1.trans hgeo1.1, g2.trans hgeo1.2.1, g3.trans hgeo1.2.2,
              g4, g5, ?_⟩
            intro ll2 hll2
            cases hll2
            exact g6 ll rfl
          case isFalse hlt =>
            simp only [Option.some.injEq, Prod.mk.injEq] at h
            obtain ⟨hl, -, -, -, -⟩ := h
            subst hl
            obtain ⟨f1, f2, f3⟩ := acceptVelBot_facts l1 ll dv hwf1 heq hlt
            have hgeo2 := acceptVelBot_geom l1 dv
            refine ⟨hgeo2.1.trans hgeo1.1, hgeo2.2.1.trans hgeo1.2.1,
              hgeo2.2.2.trans hgeo1.2.2, f1, f2, ?_⟩
            intro ll2 hll2
            cases hll2
            exact f3
        case isFalse heq =>
          split at h
          case isTrue hlt =>
            obtain ⟨g1, g2, g3, g4, g5, g6⟩ := ih _ _ _ _ _ _ _ _ _ _ h hwf1 h1000
            refine ⟨g1.trans hgeo1.1, g2.trans hgeo1.2.1, g3.trans hgeo1.2.2,
              g4, g5, ?_⟩
            intro ll2 hll2
            cases hll2
            exact g6 ll rfl
          case isFalse hlt =>
            simp only [Option.some.injEq, Prod.mk.injEq] at h
            obtain ⟨hl, -, -, -, -⟩ := h
            subst hl
            obtain ⟨f1, f2, f3⟩ := acceptVelTop_facts l1 ll dv hwf1 hlt
            have hgeo2 := acceptVelTop_geom l1 dv
            refine ⟨hgeo2.1.trans hgeo1.1, hgeo2.2.1.trans hgeo1.2.1,
              hgeo2.2.2.trans hgeo1.2.2, f1, f2, ?_⟩
            intro ll2 hll2
            cases hll2
            exact f3

/-! ### Depth-loop and layer-loop lemmas -/

theorem depthLoop_facts : ∀ (tape : List ℚ) (l : Layer) (f : ℚ) (c k : Nat)
    (l' : Layer) (dz' : ℚ) (c' k' : Nat) (t' : List ℚ),
    depthLoop l f c k tape = some (l', dz', c', k', t') →
    l'.ztop = l.ztop ∧ l'.mtop = l.mtop ∧ l'.mbot = l.mbot ∧
    l'.grad = l.grad ∧ l'.ztop ≤ l'.zbot ∧ c' = c + k' ∧ k ≤ k' := by
  intro tape
  induction tape with
  | nil =>
    intro l f c k l' dz' c' k' t' h
    rw [depthLoop] at h
    cases h
  | cons z rest ih =>
    intro l f c k l' dz' c' k' t' h
    rw [depthLoop] at h
    split at h
    case isTrue hlt =>
      obtain ⟨g1, g2, g3, g4, g5, g6, g7⟩ := ih _ _ _ _ _ _ _ _ _ h
      exact ⟨g1, g2, g3, g4, g5, by omega, by omega⟩
    case isFalse hlt =>
      simp only [Option.some.injEq, Prod.mk.injEq] at h
      obtain ⟨hl, -, hc, hk, -⟩ := h
      subst hl
      refine ⟨rfl, rfl, rfl, rfl, ?_, by omega, by omega⟩
      show l.ztop ≤ l.zbot + z * (l.zbot * f / 3)
      exact not_lt.1 hlt

theorem layersLoop_cost_floor (errD : ℚ) (dl : Option ℚ) :
    ∀ (ls : List Layer) (last : Option Layer) (e : ℚ) (c : Nat) (dz : ℚ)
      (tape : List ℚ) (out : RunOut),
      layersLoop errD dl ls last e c dz tape = some out →
      min c 1000 ≤ out.cost := by
  intro ls
  induction ls with
  | nil =>
    intro last e c dz tape out h
    rw [layersLoop] at h
    simp only [Option.some.injEq] at h
    subst h
    show min c 1000 ≤ c
    omega
  | cons layer rest ih =>
    intro last e c dz tape out h
    rw [layersLoop.eq_def] at h
    simp only [] at h
    split at h
    · cases last with
      | none => cases h
      | some ll =>
        simp only [] at h
        split at h
        · simp only [Option.some.injEq] at h
          subst h
          show min c 1000 ≤ 1000
          omega
        · split at h
          · simp only [Option.some.injEq] at h
            subst h
            show min c 1000 ≤ 1000
            omega
          · simp only [Option.some.injEq] at h
            subst h
            show min c 1000 ≤ c
            omega
    · split at h
      · cases h
      · rename_i l1 e1 c1 k1 t1 hvel
        try simp only [] at h
        split at h
        · cases h
        · rename_i l3 dz3 c2 k2 t2 hdep
          split at h
          · cases h
          · rename_i out2 hrec
            simp only [Option.some.injEq] at h
            subst h
            have h1 := velLoop_mono _ _ _ _ _ _ _ _ _ _ _ hvel
            have h2 := depthLoop_facts _ _ _ _ _ _ _ _ _ _ hdep
            have h3 := ih _ _ _ _ _ _ hrec
            show min c 1000 ≤ out2.cost
            omega

theorem layersLoop_cost_formula (errD : ℚ) (dl : Option ℚ) :
    ∀ (ls : List Layer) (last : Option Layer) (e : ℚ) (c : Nat) (dz : ℚ)
      (tape : List ℚ) (out : RunOut),
      layersLoop errD dl ls last e c dz tape = some out →
      out.vbroke = false → out.dlbroke = false →
      out.cost = c + 2 * out.vRej + out.dRej := by
  intro ls
  induction ls with
  | nil =>
    intro last e c dz tape out h hv hd
    rw [layersLoop] at h
    simp only [Option.some.injEq] at h
    subst h
    show c = c + 2 * 0 + 0
    omega
  | cons layer rest ih =>
    intro last e c dz tape out h hv hd
    rw [layersLoop.eq_def] at h
    simp only [] at h
    split at h
    · cases last with
      | none => cases h
      | some ll =>
        simp only [] at h
        split at h
        · simp only [Option.some.injEq] at h
          subst h
          exact absurd hd (by simp)
        · split at h
          · simp only [Option.some.injEq] at h
            subst h
            exact absurd hd (by simp)
          · simp only [Option.some.injEq] at h
            subst h
            exact absurd hd (by simp)
    · split at h
      · cases h
      · rename_i l1 e1 c1 k1 t1 hvel
        try simp only [] at h
        split at h
        · cases h
        · rename_i l3 dz3 c2 k2 t2 hdep
          split at h
          · cases h
          · rename_i out2 hrec
            simp only [Option.some.injEq] at h
            subst h
            have hv2 : (decide (k1 > 1000) || out2.vbroke) = false := hv
            have hd2 : out2.dlbroke = false := hd
            rw [Bool.or_eq_false_iff] at hv2
            have hk1 : k1 ≤ 1000 := by
              have := of_decide_eq_false hv2.1
              omega
            have hc1 : c1 = c + k1 := by
              rcases velLoop_cost _ _ _ _ _ _ _ _ _ _ _ hvel hk1 with h1 | h1
              · exact h1
              · omega
            have h2 := depthLoop_facts _ _ _ _ _ _ _ _ _ _ hdep
            have h3 := ih _ _ _ _ _ _ hrec hv2.2 hd2
            show out2.cost = c + 2 * (k1 + out2.vRej) + ((k2 - k1) + out2.dRej)
            omega

theorem layersLoop_good (errD : ℚ) (dl : Option ℚ) :
    ∀ (ls : List Layer) (last : Option Layer) (e : ℚ) (c : Nat) (dz : ℚ)
      (tape : List ℚ) (out : RunOut),
      layersLoop errD dl ls last e c dz tape = some out →
      (∀ l ∈ ls, layerWF dl l) → out.cost ≤ 20 →
      (∀ l ∈ out.layers, l.ztop ≤ l.zbot ∧ l.mtop.vp ≤ l.mbot.vp) ∧
      List.Chain' (fun x y => x.mbot.vp ≤ y.mtop.vp) out.layers ∧
      (∀ ll b, last = some ll → out.layers.head? = some b →
        ll.mbot.vp ≤ b.mtop.vp) := by
  intro ls
  induction ls with
  | nil =>
    intro last e c dz tape out h hwf hcost
    rw [layersLoop] at h
    simp only [Option.some.injEq] at h
    subst h
    refine ⟨?_, List.chain'_nil, ?_⟩
    · intro l hl
      simp at hl
    · intro ll b _ hb
      simp at hb
  | cons layer rest ih =>
    intro last e c dz tape out h hwf hcost
    have hwfl := hwf layer (List.mem_cons_self _ _)
    rw [layersLoop.eq_def] at h
    simp only [] at h
    split at h
    case isTrue hguard =>
      rw [hwfl.1] at hguard
      cases hguard
    case isFalse hguard =>
      split at h
      · cases h
      · rename_i l1 e1 c1 k1 t1 hvel
        try simp only [] at h
        split at h
        · cases h
        · rename_i l3 dz3 c2 k2 t2 hdep
          split at h
          · cases h
          · rename_i out2 hrec
            simp only [Option.some.injEq] at h
            subst h
            have hcost2 : out2.cost ≤ 20 := hcost
            have hfloor := layersLoop_cost_floor errD dl rest _ _ _ _ _ _ hrec
            have hdfacts := depthLoop_facts _ _ _ _ _ _ _ _ _ _ hdep
            have hk1 : k1 ≤ 1000 := by omega
            obtain ⟨v1, v2, v3, v4, v5, v6⟩ :=
              velLoop_facts _ _ _ _ _ _ _ _ _ _ _ hvel hwfl.2 hk1
            have d1 : l3.ztop ≤ l3.zbot := hdfacts.2.2.2.2.1
            have d2 : l3.mtop = l1.mtop := hdfacts.2.1
            have d3 : l3.mbot = l1.mbot := hdfacts.2.2.1
            have hwithin3 : l3.mtop.vp ≤ l3.mbot.vp := by
              rw [d2, d3]
              exact v5
            obtain ⟨hall2, hchain2, hanchor2⟩ :=
              ih _ _ _ _ _ _ hrec
                (fun l hl => hwf l (List.mem_cons_of_mem _ hl)) hcost2
            refine ⟨?_, ?_, ?_⟩
            · intro l hl
              have hl' : l ∈ l3 :: out2.layers := hl
              rcases List.mem_cons.1 hl' with hl3 | hmem
              · subst hl3
                exact ⟨d1, hwithin3⟩
              · exact hall2 l hmem
            · refine List.chain'_cons'.2 ⟨?_, hchain2⟩
              intro y hy
              rw [d3]
              have : l1.mbot.vp ≤ y.mtop.vp := by
                have := hanchor2 l3 y rfl (Option.mem_def.1 hy)
                rw [d3] at this
                exact this
              exact this
            · intro ll b hlast hb
              have hb' : some l3 = some b := hb
              have hbl : l3 = b := by
                injection hb'
              subst hbl
              rw [d2]
              exact v6 ll hlast

/-! ### Zero-error identity lemmas -/

theorem addVel_zero (m : Material) : m.addVel 0 = m := by
  obtain ⟨vp, vs⟩ := m
  simp [Material.addVel]

theorem bumpMtopVp_zero (l : Layer) (hm : l.grad = false → l.mtop = l.mbot) :
    l.bumpMtopVp 0 = l := by
  obtain ⟨zt, zb, mt, mb, g⟩ := l
  cases g with
  | true => simp [Layer.bumpMtopVp]
  | false =>
    have h : mt = mb := hm rfl
    simp [Layer.bumpMtopVp, h]

theorem acceptVelTop_zero (l : Layer) (hm : l.grad = false → l.mtop = l.mbot) :
    l.acceptVelTop 0 = l := by
  obtain ⟨zt, zb, mt, mb, g⟩ := l
  cases g with
  | true => simp [Layer.acceptVelTop, addVel_zero]
  | false =>
    have h : mt = mb := hm rfl
    simp [Layer.acceptVelTop, addVel_zero, h]

theorem acceptVelBot_zero (l : Layer) (hm : l.grad = false → l.mtop = l.mbot) :
    l.acceptVelBot 0 = l := by
  obtain ⟨zt, zb, mt, mb, g⟩ := l
  cases g with
  | true => simp [Layer.acceptVelBot, addVel_zero]
  | false =>
    have h : mt = mb := hm rfl
    simp [Layer.acceptVelBot, addVel_zero, h]

theorem mantleOverride_shallow (ztop e : ℚ) (h : ztop ≤ 200 * km) :
    mantleOverride ztop e = e := by
  show (if 400 * km < ztop then (1 / 100 : ℚ)
    else if 200 * km < ztop then (2 / 100 : ℚ) else e) = e
  rw [if_neg (not_lt.2 (h.trans (by norm_num [km]))), if_neg (not_lt.2 h)]

theorem factorD_shallow (l : Layer) (errD : ℚ) (h : l.zbot < 410 * km) :
    factorD l errD = errD := by
  have hk : pyTruncKm l.zbot < 410 := by
    unfold pyTruncKm
    split
    case isTrue h0 =>
      rw [Int.floor_lt]
      push_cast
      rw [div_lt_iff₀ (by norm_num [km])]
      norm_num [km] at h ⊢
      linarith
    case isFalse h0 =>
      have hneg : l.zbot / km ≤ 0 :=
        le_of_lt (div_neg_of_neg_of_pos (by linarith [not_le.1 h0])
          (by norm_num [km]))
      have hc : ⌈l.zbot / km⌉ ≤ (0 : ℤ) := Int.ceil_le.2 (by exact_mod_cast hneg)
      exact lt_of_le_of_lt hc (by norm_num)
  have hnone : discontUnc (pyTruncKm l.zbot) = none := by
    unfold discontUnc
    rw [if_neg (by omega), if_neg (by omega), if_neg (by omega)]
  unfold factorD
  rw [hnone]

theorem velLoop_zero (l : Layer) (last : Option Layer) (c : Nat) (z : ℚ)
    (t : List ℚ) (hsh : l.ztop ≤ 200 * km)
    (hm : l.grad = false → l.mtop = l.mbot)
    (hmono : l.mtop.vp ≤ l.mbot.vp)
    (hanchor : ∀ ll, last = some ll → ll.mbot.vp ≤ l.mtop.vp) :
    velLoop l last 0 c 0 (z :: t) = some (l, 0, c, 0, t) := by
  rw [velLoop]
  rw [if_neg (by omega)]
  rw [mantleOverride_shallow l.ztop 0 hsh]
  simp only [mul_zero, zero_div, zero_mul]
  have hbump : (if l.ztop = 0 then l.bumpMtopVp 0 else l) = l := by
    split
    · exact bumpMtopVp_zero l hm
    · rfl
  rw [hbump]
  cases last with
  | none => rfl
  | some ll =>
    simp only []
    by_cases hc : l.mtop.vp = ll.mbot.vp
    · rw [if_pos hc, add_zero, if_neg (not_lt.2 hmono),
        acceptVelBot_zero l hm, Nat.add_zero]
    · rw [if_neg hc, add_zero, if_neg (not_lt.2 (hanchor ll rfl)),
        acceptVelTop_zero l hm, Nat.add_zero]

theorem depthLoop_zero (l : Layer) (c k : Nat) (z : ℚ) (t : List ℚ)
    (hle : l.ztop ≤ l.zbot) :
    depthLoop l 0 c k (z :: t) = some (l, 0, c + k, k, t) := by
  rw [depthLoop]
  simp only [mul_zero, zero_div, zero_mul]
  rw [if_neg (by rw [add_zero]; exact not_lt.2 hle)]
  rw [add_zero]

theorem layersLoop_zero_id :
    ∀ (ls : List Layer) (last : Option Layer) (c : Nat) (tape : List ℚ),
      (∀ l ∈ ls, zeroWF l) →
      List.Chain' (fun a b => a.mbot.vp ≤ b.mtop.vp) ls →
      (∀ ll b, last = some ll → ls.head? = some b → ll.mbot.vp ≤ b.mtop.vp) →
      2 * ls.length ≤ tape.length →
      layersLoop 0 (some (600 * km)) ls last 0 c 0 tape =
        some ⟨ls, c, tape.drop (2 * ls.length), 0, 0, false, false⟩ := by
  intro ls
  induction ls with
  | nil =>
    intro last c tape _ _ _ _
    rw [layersLoop]
    simp
  | cons layer rest ih =>
    intro last c tape hwf hchain hanchor hlen
    obtain ⟨z1, t1, rfl⟩ : ∃ z1 t1, tape = z1 :: t1 := by
      cases tape with
      | nil =>
        exfalso
        simp only [List.length_cons, List.length_nil] at hlen
        omega
      | cons a b => exact ⟨a, b, rfl⟩
    obtain ⟨z2, t2, rfl⟩ : ∃ z2 t2, t1 = z2 :: t2 := by
      cases t1 with
      | nil =>
        exfalso
        simp only [List.length_cons, List.length_nil] at hlen
        omega
      | cons a b => exact ⟨a, b, rfl⟩
    obtain ⟨w1, w2, w3, w4, w5⟩ := hwf layer (List.mem_cons_self _ _)
    have hguard : dlGuard (some (600 * km)) layer.ztop = false := by
      show (if (600 * km : ℚ) = 0 then false
        else decide ((600 * km : ℚ) ≤ layer.ztop)) = false
      rw [if_neg (by norm_num [km])]
      exact decide_eq_false (by
        rw [not_le]
        calc layer.ztop ≤ 200 * km := w1
          _ < 600 * km := by norm_num [km])
    rw [show (2 : Nat) * (layer :: rest).length = 2 * rest.length + 1 + 1 from by
      simp only [List.length_cons]
      ring]
    rw [List.drop_succ_cons, List.drop_succ_cons]
    rw [layersLoop.eq_def]
    simp only []
    split
    case isTrue hg =>
      have hg' : dlGuard (some (600 * km)) layer.ztop = true := hg
      rw [hguard] at hg'
      cases hg'
    case isFalse hg =>
      have hanchor1 : ∀ ll, last = some ll → ll.mbot.vp ≤ layer.mtop.vp := by
        intro ll hll
        exact hanchor ll layer hll rfl
      rw [velLoop_zero layer last c z1 (z2 :: t2) w1 w4 w5 hanchor1]
      simp only []
      have hl2 : ({ layer with ztop := layer.ztop + 0 } : Layer) = layer := by
        simp
      rw [hl2]
      rw [factorD_shallow layer 0 w2]
      rw [depthLoop_zero layer c 0 z2 t2 w3]
      simp only [Nat.add_zero]
      rw [ih (some layer) c t2
        (fun l hl => hwf l (List.mem_cons_of_mem _ hl))
        hchain.tail
        (by
          intro ll b hll hb
          injection hll with hll
          subst hll
          exact (List.chain'_cons'.1 hchain).1 b (Option.mem_def.2 hb))
        (by simp only [List.length_cons] at hlen; omega)]
      rfl

/-! ### Ensemble-loop lemmas -/

theorem acceptedRuns_none (ref : List Layer) (errD errV : ℚ) (dl : Option ℚ)
    (fuel : Nat) (tape : List ℚ)
    (hv : vary_model ref errD errV dl tape = none) :
    acceptedRuns ref errD errV dl (fuel + 1) tape = [] := by
  unfold acceptedRuns
  rw [varyRuns, hv]
  rfl

theorem acceptedRuns_skip (ref : List Layer) (errD errV : ℚ) (dl : Option ℚ)
    (fuel : Nat) (tape : List ℚ) (out : RunOut)
    (hv : vary_model ref errD errV dl tape = some out) (hgt : out.cost > 20) :
    acceptedRuns ref errD errV dl (fuel + 1) tape =
      acceptedRuns ref errD errV dl fuel out.tape := by
  unfold acceptedRuns
  rw [varyRuns, hv]
  have hd : (decide (out.cost ≤ 20)) = false := decide_eq_false (by omega)
  simp [List.filter_cons, hd]

theorem acceptedRuns_keep (ref : List Layer) (errD errV : ℚ) (dl : Option ℚ)
    (fuel : Nat) (tape : List ℚ) (out : RunOut)
    (hv : vary_model ref errD errV dl tape = some out) (hle : out.cost ≤ 20) :
    acceptedRuns ref errD errV dl (fuel + 1) tape =
      out.layers :: acceptedRuns ref errD errV dl fuel out.tape := by
  unfold acceptedRuns
  rw [varyRuns, hv]
  have hd : (decide (out.cost ≤ 20)) = true := decide_eq_true hle
  simp [List.filter_cons, hd]

theorem ensembleLoop_spec (ref : List Layer) (errD errV : ℚ) (dl : Option ℚ)
    (numVary : Nat) :
    ∀ (fuel i : Nat) (acc : List (List Layer)) (tape : List ℚ)
      (res : List (List Layer)) (tape' : List ℚ),
      ensembleLoop ref errD errV dl numVary fuel i acc tape = some (res, tape') →
      res = acc ++ (acceptedRuns ref errD errV dl fuel tape).take (numVary - i) ∧
      res.length = acc.length + (numVary - i) := by
  intro fuel
  induction fuel with
  | zero =>
    intro i acc tape res tape' h
    rw [ensembleLoop] at h
    split at h
    · cases h
    case isFalse hlt =>
      simp only [Option.some.injEq, Prod.mk.injEq] at h
      obtain ⟨h1, -⟩ := h
      subst h1
      have hz : numVary - i = 0 := by omega
      rw [hz]
      simp
  | succ fuel ih =>
    intro i acc tape res tape' h
    rw [ensembleLoop] at h
    split at h
    case isTrue hlt =>
      try simp only [] at h
      split at h
      case h_1 hv => cases h
      case h_2 out hv =>
        split at h
        case isTrue hgt =>
          obtain ⟨h1, h2⟩ := ih _ _ _ _ _ h
          rw [acceptedRuns_skip ref errD errV dl fuel tape out hv hgt]
          exact ⟨h1, h2⟩
        case isFalse hgt =>
          obtain ⟨h1, h2⟩ := ih _ _ _ _ _ h
          rw [acceptedRuns_keep ref errD errV dl fuel tape out hv (by omega)]
          have hn : numVary - i = (numVary - (i + 1)) + 1 := by omega
          rw [hn, List.take_succ_cons]

          constructor
          · rw [h1]
            simp
          · rw [h2]
            simp
            omega
    case isFalse hlt =>
      simp only [Option.some.injEq, Prod.mk.injEq] at h
      obtain ⟨h1, -⟩ := h
      subst h1
      have hz : numVary - i = 0 := by omega
      rw [hz]
      simp

theorem ensemble_members_accepted (ref : List Layer) (numVary : Nat)
    (errD errV : ℚ) (dl : Option ℚ) (fuel : Nat) (tape : List ℚ)
    (res : List (List Layer))
    (hrun : ensemble_earthmodel ref numVary errD errV dl fuel tape = some res) :
    ∀ m ∈ res, ∃ cost, (m, cost) ∈ varyRuns ref errD errV dl fuel tape ∧
      cost ≤ 20 := by
  unfold ensemble_earthmodel at hrun
  cases he : ensembleLoop ref errD errV dl numVary fuel 0 [] tape with
  | none =>
    rw [he] at hrun
    cases hrun
  | some p =>
    rw [he] at hrun
    simp only [Option.map_some', Option.some.injEq] at hrun
    subst hrun
    obtain ⟨h1, -⟩ := ensembleLoop_spec ref errD errV dl numVary fuel 0 [] tape
      p.1 p.2 (by rw [he])
    intro m hm
    rw [h1] at hm
    simp only [List.nil_append] at hm
    have hm2 : m ∈ acceptedRuns ref errD errV dl fuel tape :=
      List.take_subset _ _ hm
    unfold acceptedRuns at hm2
    obtain ⟨q, hq, hqm⟩ := List.mem_map.1 hm2
    obtain ⟨hqr, hqc⟩ := List.mem_filter.1 hq
    refine ⟨q.2, ?_, of_decide_eq_true hqc⟩
    rw [← hqm]
    exact hqr

theorem varyRuns_mem (ref : List Layer) (errD errV : ℚ) (dl : Option ℚ) :
    ∀ (fuel : Nat) (tape : List ℚ) (m : List Layer) (cost : Nat),
      (m, cost) ∈ varyRuns ref errD errV dl fuel tape →
      ∃ t out, vary_model ref errD errV dl t = some out ∧
        out.layers = m ∧ out.cost = cost := by
  intro fuel
  induction fuel with
  | zero =>
    intro tape m cost h
    rw [varyRuns] at h
    simp at h
  | succ fuel ih =>
    intro tape m cost h
    rw [varyRuns] at h
    cases hv : vary_model ref errD errV dl tape with
    | none =>
      rw [hv] at h
      simp at h
    | some out =>
      rw [hv] at h
      rcases List.mem_cons.1 h with hhead | htail
      · have hm : m = out.layers ∧ cost = out.cost := by
          simpa [Prod.ext_iff] using hhead
        exact ⟨tape, out, hv, hm.1.symm, hm.2.symm⟩
      · exact ih _ _ _ htail

/-! ### C1 -/

/-- C1: the stacking step of `seis_synthetics` does NOT sum over sources:
the accumulator is re-zeroed inside the loop, so for more than one source
only the last source's block is returned.  At `ns = 2, nt = 1` with traces
`[1]` and `[2]` the code yields `[2]` while the element-wise sum is `[3]`;
swapping the sources changes the result, refuting order independence.
The single-source branch does return the unstacked trace. -/
theorem stack_returns_last_source_only :
    seis_synthetics_stack 2 1 [[(1 : ℚ)], [2]] = [[2]] ∧
    seis_synthetics_stack_spec 2 1 [[(1 : ℚ)], [2]] = [[3]] ∧
    seis_synthetics_stack 2 1 [[(1 : ℚ)], [2]] ≠
      seis_synthetics_stack_spec 2 1 [[(1 : ℚ)], [2]] ∧
    seis_synthetics_stack 2 1 [[(1 : ℚ)], [2]] ≠
      seis_synthetics_stack 2 1 [[(2 : ℚ)], [1]] ∧
    seis_synthetics_stack 1 1 [[(5 : ℚ)]] = [[5]] := by
  refine ⟨?_, ?_, ?_, ?_, ?_⟩ <;>
    norm_num [seis_synthetics_stack, seis_synthetics_stack_spec, matAdd,
      List.range_succ]

/-! ### C8 and C10 -/

/-- C8: for a `Covariance` whose `data` matrix is set and whose set
prediction components match its shape, the `total` value is the
element-wise sum of `data` and the prediction components, an unset
component contributing a zero matrix shaped like `data`; with only `data`
set, `total` equals `data` exactly. -/
theorem covariance_total_sum (cv : Covariance) (d : List (List ℚ))
    (cv' : Covariance) (v : List (List ℚ))
    (hd : cv.data = some d)
    (hg : ∀ m, cv.pred_g = some m → shape m = shape d)
    (hv : ∀ m, cv.pred_v = some m → shape m = shape d)
    (hrun : cv.total_read = some (cv', v)) :
    (∀ i j, entry v i j =
      entry d i j + optEntry cv.pred_g d i j + optEntry cv.pred_v d i j) ∧
    (cv.pred_g = none → cv.pred_v = none → v = d) := by
  unfold Covariance.total_read at hrun
  rw [hd] at hrun
  simp only [Option.some.injEq, Prod.mk.injEq] at hrun
  obtain ⟨-, hveq⟩ := hrun
  have hpg : shape (match cv.pred_g with
      | none => zeros_like d
      | some m => m) = shape d := by
    cases hpgc : cv.pred_g with
    | none => simpa using shape_zeros_like d
    | some m => simpa using hg m hpgc
  have hpv : shape (match cv.pred_v with
      | none => zeros_like d
      | some m => m) = shape d := by
    cases hpvc : cv.pred_v with
    | none => simpa using shape_zeros_like d
    | some m => simpa using hv m hpvc
  constructor
  · intro i j
    have h1 : shape d = shape (match cv.pred_g with
        | none => zeros_like d
        | some m => m) := hpg.symm
    have h2 : shape (matAdd d (match cv.pred_g with
        | none => zeros_like d
        | some m => m)) = shape (match cv.pred_v with
        | none => zeros_like d
        | some m => m) := by
      rw [shape_matAdd _ _ h1, hpv]
    rw [← hveq]
    rw [entry_matAdd _ _ h2 i j, entry_matAdd _ _ h1 i j]
    simp [optEntry]
  · intro hgn hvn
    rw [hgn] at hveq
    rw [hvn] at hveq
    rw [← hveq]
    rw [matAdd_zeros_like d, matAdd_zeros_like d]

/-- C8 witness: `data = [[1]]`, `pred_g = [[2]]`, `pred_v` unset: the total
entry at `(0, 0)` is `1 + 2 + 0 = 3`, and with both predictions unset the
total equals `data`. -/
theorem covariance_total_sum_witness :
    entry [[(3 : ℚ)]] 0 0 =
      entry [[(1 : ℚ)]] 0 0 + optEntry (some [[(2 : ℚ)]]) [[(1 : ℚ)]] 0 0 +
        optEntry none [[(1 : ℚ)]] 0 0 := by
  exact (covariance_total_sum
    { data := some [[(1 : ℚ)]], pred_g := some [[(2 : ℚ)]], pred_v := none }
    [[(1 : ℚ)]]
    { data := some [[(1 : ℚ)]], pred_g := some [[(2 : ℚ)]],
      pred_v := some [[(0 : ℚ)]] }
    [[(3 : ℚ)]] rfl (by intro m hm; cases hm; rfl) (by intro m hm; cases hm)
    (by norm_num [Covariance.total_read, matAdd, zeros_like])).1 0 0

/-- C10: reading the `total` property mutates the `Covariance`: an unset
prediction component is assigned the zero matrix shaped like `data`, while
`data` itself and any already-set component are left unchanged. -/
theorem covariance_total_mutation (cv : Covariance) (d : List (List ℚ))
    (cv' : Covariance) (v : List (List ℚ))
    (hd : cv.data = some d)
    (hrun : cv.total_read = some (cv', v)) :
    cv'.data = cv.data ∧
    (cv.pred_g = none → cv'.pred_g = some (zeros_like d)) ∧
    (∀ m, cv.pred_g = some m → cv'.pred_g = some m) ∧
    (cv.pred_v = none → cv'.pred_v = some (zeros_like d)) ∧
    (∀ m, cv.pred_v = some m → cv'.pred_v = some m) := by
  unfold Covariance.total_read at hrun
  rw [hd] at hrun
  simp only [Option.some.injEq, Prod.mk.injEq] at hrun
  obtain ⟨hcv, -⟩ := hrun
  refine ⟨?_, ?_, ?_, ?_, ?_⟩
  · rw [← hcv, hd]
  · intro h; rw [← hcv]; simp [h]
  · intro m h; rw [← hcv]; simp [h]
  · intro h; rw [← hcv]; simp [h]
  · intro m h; rw [← hcv]; simp [h]

/-- C10 witness: with `data = [[1]]` and both predictions unset, the read
assigns `[[0]]` to `pred_g`. -/
theorem covariance_total_mutation_witness :
    ({ data := some [[(1 : ℚ)]], pred_g := some [[(0 : ℚ)]],
       pred_v := some [[(0 : ℚ)]] } : Covariance).pred_g =
      some (zeros_like [[(1 : ℚ)]]) := by
  exact (covariance_total_mutation
    { data := some [[(1 : ℚ)]], pred_g := none, pred_v := none }
    [[(1 : ℚ)]]
    { data := some [[(1 : ℚ)]], pred_g := some [[(0 : ℚ)]],
      pred_v := some [[(0 : ℚ)]] }
    [[(1 : ℚ)]] rfl
    (by norm_num [Covariance.total_read, matAdd, zeros_like])).2.1 rfl

/-! ### C9 -/

/-- C9 counterexample: the remediation does not halve the soft-sediment
layer: with water 1, soft sediment 3 and lower crust 10 the code keeps
`ceil(3 / 3) = 1` of the sediment (not `3 / 2`) and moves
`1 + (3 - 1) = 3` to the lower crust (not `1 + 3 / 2`). -/
theorem water_remediation_halving_cex :
    remediate_water_layer ⟨1, 3, 10, 5⟩ = ⟨0, 1, 13, 0⟩ ∧
    remediate_water_layer_halved ⟨1, 3, 10, 5⟩ = ⟨0, 3/2, 25/2, 0⟩ ∧
    remediate_water_layer ⟨1, 3, 10, 5⟩ ≠
      remediate_water_layer_halved ⟨1, 3, 10, 5⟩ := by
  refine ⟨?_, ?_, ?_⟩ <;>
    norm_num [remediate_water_layer, remediate_water_layer_halved,
      Crust2Profile.mk.injEq]

/-- C9 amended: when the water layer is strictly positive, the remediation
zeroes the water thickness, keeps `ceil(soft / 3)` of the soft-sediment
thickness (a third rounded up, not a half), and adds the water thickness
plus the removed sediment to the lower crust; total thickness of the three
layers is preserved. -/
theorem water_remediation_amended (p : Crust2Profile)
    (h : 0 < p.thickness_lwater) :
    (remediate_water_layer p).thickness_lwater = 0 ∧
    (remediate_water_layer p).thickness_lsoftsed =
      ((⌈p.thickness_lsoftsed / 3⌉ : ℤ) : ℚ) ∧
    (remediate_water_layer p).thickness_llowercrust =
      p.thickness_llowercrust + p.thickness_lwater +
        (p.thickness_lsoftsed - ((⌈p.thickness_lsoftsed / 3⌉ : ℤ) : ℚ)) ∧
    (remediate_water_layer p).thickness_lwater +
      (remediate_water_layer p).thickness_lsoftsed +
      (remediate_water_layer p).thickness_llowercrust =
      p.thickness_lwater + p.thickness_lsoftsed +
        p.thickness_llowercrust := by
  unfold remediate_water_layer
  rw [if_pos h]
  refine ⟨rfl, rfl, rfl, by ring⟩

/-- C9 witness: the amended description evaluated at water 1, sediment 3,
lower crust 10. -/
theorem water_remediation_amended_witness :
    (0 : ℚ) < 1 ∧ (remediate_water_layer ⟨1, 3, 10, 5⟩).thickness_lsoftsed =
      ((⌈(3 : ℚ) / 3⌉ : ℤ) : ℚ) :=
  ⟨by norm_num, (water_remediation_amended ⟨1, 3, 10, 5⟩ (by norm_num)).2.1⟩

/-! ### C6 and C7 -/

/-- C6 counterexample: for taper offsets `a = 1 ≤ b = 2 ≤ c = 3 ≤ d = 4`
(as ordered by the claim) and arrival time 0, the built window times are
`(-1, -2, 3, 4)` and the first two are NOT ordered: the claim's direction
for `a` and `b` is wrong, since `a` and `b` are subtracted from the
arrival. -/
theorem taperer_monotone_cex :
    (1 : ℚ) ≤ 2 ∧ (2 : ℚ) ≤ 3 ∧ (3 : ℚ) ≤ 4 ∧
    get_phase_taperer engine0 ⟨0, 0⟩ target_Z ⟨1, 2, 3, 4⟩ =
      Except.ok ⟨-1, -2, 3, 4⟩ ∧
    ¬ ((-1 : ℚ) ≤ -2) := by
  refine ⟨by norm_num, by norm_num, by norm_num, ?_, by norm_num⟩
  norm_num [get_phase_taperer, get_phase_arrival_time, engine0, target_Z,
    CosTaper.mk.injEq]

/-- C6 amended: for taper offsets with `b ≤ a`, `-b ≤ c` and `c ≤ d`, the
four absolute window times of the taper built by `get_phase_taperer` are
monotonically ordered:
`arrival - a ≤ arrival - b ≤ arrival + c ≤ arrival + d`. -/
theorem taperer_monotone_amended (engine : Engine) (source : SeisSource)
    (target : SeisTarget) (atp : ArrivalTaper) (tp : CosTaper)
    (hrun : get_phase_taperer engine source target atp = Except.ok tp)
    (hba : atp.b ≤ atp.a) (hbc : -atp.b ≤ atp.c) (hcd : atp.c ≤ atp.d) :
    tp.ta ≤ tp.tb ∧ tp.tb ≤ tp.tc ∧ tp.tc ≤ tp.td := by
  unfold get_phase_taperer at hrun
  cases harr : get_phase_arrival_time engine source target with
  | error e => rw [harr] at hrun; cases hrun
  | ok t =>
    rw [harr] at hrun
    simp only [Except.ok.injEq] at hrun
    subst hrun
    refine ⟨?_, ?_, ?_⟩
    · show t - atp.a ≤ t - atp.b
      linarith
    · show t - atp.b ≤ t + atp.c
      linarith
    · show t + atp.c ≤ t + atp.d
      linarith

/-- C6 witness: the default taper offsets `(15, 10, 50, 55)` produce the
ordered window `(-15, -10, 50, 55)` around arrival time 0. -/
theorem taperer_monotone_amended_witness :
    ({ ta := -15, tb := -10, tc := 50, td := 55 } : CosTaper).ta ≤
      ({ ta := -15, tb := -10, tc := 50, td := 55 } : CosTaper).tb :=
  (taperer_monotone_amended engine0 ⟨0, 0⟩ target_Z ⟨15, 10, 50, 55⟩
    ⟨-15, -10, 50, 55⟩
    (by norm_num [get_phase_taperer, get_phase_arrival_time, engine0,
      target_Z, CosTaper.mk.injEq])
    (by norm_num) (by norm_num) (by norm_num)).1

/-- C7: `get_phase_arrival_time` errors exactly when the target channel is
neither `T` nor `Z`; channel `T` yields the store's `any_S` travel time at
(source depth, source-target distance) plus the source time, channel `Z`
the `any_P` travel time plus the source time. -/
theorem phase_arrival_channel_spec (engine : Engine) (source : SeisSource)
    (target : SeisTarget) :
    ((∃ e, get_phase_arrival_time engine source target = Except.error e) ↔
      (target.codes.2.2.2 ≠ "T" ∧ target.codes.2.2.2 ≠ "Z")) ∧
    (target.codes.2.2.2 = "T" →
      get_phase_arrival_time engine source target =
        Except.ok (engine target.store_id ("any_S") source.depth
          (target.distance_to source) + source.time)) ∧
    (target.codes.2.2.2 = "Z" →
      get_phase_arrival_time engine source target =
        Except.ok (engine target.store_id ("any_P") source.depth
          (target.distance_to source) + source.time)) := by
  by_cases hT : target.codes.2.2.2 = "T"
  · refine ⟨?_, ?_, ?_⟩
    · simp [get_phase_arrival_time, hT]
    · intro _; simp [get_phase_arrival_time, hT]
    · intro hZ; rw [hT] at hZ; exact absurd hZ (by simp)
  · by_cases hZ : target.codes.2.2.2 = "Z"
    · refine ⟨?_, ?_, ?_⟩
      · simp [get_phase_arrival_time, hT, hZ]
      · intro h; exact absurd h hT
      · intro _; simp [get_phase_arrival_time, hT, hZ]
    · refine ⟨?_, ?_, ?_⟩
      · simp [get_phase_arrival_time, hT, hZ]
      · intro h; exact absurd h hT
      · intro h; exact absurd h hZ

/-- C7 witness: a `Z` target with a zero travel-time table and source time
2 yields arrival time 2. -/
theorem phase_arrival_channel_spec_witness :
    get_phase_arrival_time engine0 ⟨0, 2⟩ target_Z = Except.ok 2 := by
  have h := (phase_arrival_channel_spec engine0 ⟨0, 2⟩ target_Z).2.2 rfl
  simpa [engine0] using h

/-! ### C2, C3, C4, C5 -/

/-- C2 counterexample: a single accepted ensemble variant can violate
within-layer monotonicity.  For a reference model consisting of one
gradient layer at the surface (`ztop = 0`, vp 5 at top, 5.1 at bottom),
the draw 1 with `err_velocities = 3/10` bumps only the TOP velocity
(line 427 applies before the monotonicity checks, and for the first layer
no check ever runs), producing top vp 11/2 > bottom vp 51/10 at cost 0;
the variant is accepted by `ensemble_earthmodel`. -/
theorem ensemble_monotone_cex :
    ensemble_earthmodel emG 1 0 (3 / 10) (some (600 * km)) 1 [1, 0] =
      some [emG'] ∧
    emG'.head? = some (Layer.mk 0 10000 (Material.mk (11 / 2) 3)
      (Material.mk (51 / 10) 3) true) ∧
    ¬ ((11 / 2 : ℚ) ≤ 51 / 10) := by
  refine ⟨?_, by norm_num [emG'], by norm_num⟩
  norm_num [ensemble_earthmodel, ensembleLoop, vary_model, layersLoop, velLoop,
    depthLoop, mantleOverride, factorD, pyTruncKm, discontUnc, dlGuard, km,
    Layer.bumpMtopVp, Material.addVel, Layer.acceptVelTop, Layer.acceptVelBot,
    emG, emG']

/-- C2 (amended): every model returned by `ensemble_earthmodel` has
ordered layer depths (`ztop <= zbot` in every layer) and non-decreasing
P-velocity, both within each layer and across consecutive layers, PROVIDED
the reference layers are well formed for the pass (`layerWF`): none is cut
off by the depth limit, homogeneous layers have aliased (equal) material
views, and gradient layers are internally non-decreasing and not at the
surface (the surface-layer case is refuted by the counterexample). -/
theorem ensemble_models_monotone (ref : List Layer) (numVary : Nat)
    (errD errV : ℚ) (dl : Option ℚ) (fuel : Nat) (tape : List ℚ)
    (res : List (List Layer))
    (hrun : ensemble_earthmodel ref numVary errD errV dl fuel tape = some res)
    (hwf : ∀ l ∈ ref, layerWF dl l) :
    ∀ m ∈ res,
      (∀ l ∈ m, l.ztop ≤ l.zbot ∧ l.mtop.vp ≤ l.mbot.vp) ∧
      List.Chain' (fun x y => x.mbot.vp ≤ y.mtop.vp) m := by
  intro m hm
  obtain ⟨cost, hmem, hcost⟩ :=
    ensemble_members_accepted ref numVary errD errV dl fuel tape res hrun m hm
  obtain ⟨t, out, hv, hlay, hco⟩ :=
    varyRuns_mem ref errD errV dl fuel tape m cost hmem
  subst hlay
  have hg := layersLoop_good errD dl ref none errV 0 0 t out hv hwf (by omega)
  exact ⟨hg.1, hg.2.1⟩

/-- C2 witness: the two-layer homogeneous model `emW` run with zero errors
produces itself as the accepted variant, and the interface chain holds. -/
theorem ensemble_models_monotone_witness :
    List.Chain' (fun x y => x.mbot.vp ≤ y.mtop.vp) emW :=
  (ensemble_models_monotone emW 1 0 0 (some (600 * km)) 1 [0, 0, 0, 0] [emW]
    (by
      norm_num [ensemble_earthmodel, ensembleLoop, vary_model, layersLoop,
        velLoop, depthLoop, mantleOverride, factorD, pyTruncKm, discontUnc,
        dlGuard, km, Layer.bumpMtopVp, Material.addVel, Layer.acceptVelTop,
        Layer.acceptVelBot, emW])
    (by
      intro l hl
      have hguard : ∀ zt : ℚ, zt ≤ 2000 →
          dlGuard (some (600 * km)) zt = false := by
        intro zt hzt
        show (if (600 * km : ℚ) = 0 then false
          else decide ((600 * km : ℚ) ≤ zt)) = false
        rw [if_neg (by norm_num [km])]
        refine decide_eq_false ?_
        rw [not_le]
        norm_num [km]
        linarith
      simp only [emW, List.mem_cons, List.not_mem_nil, or_false] at hl
      rcases hl with rfl | rfl
      · exact ⟨hguard 0 (by norm_num), by norm_num [velWF]⟩
      · exact ⟨hguard 1000 (by norm_num), by norm_num [velWF]⟩)
    emW (by simp)).2

/-- C3 counterexample: with `err_depth = err_velocities = 0` the variant
need not be identical to the input: for a single homogeneous layer whose
bottom sits at 410 km, the hardcoded discontinuity uncertainty (3 km at
410 km, lines 389/458-462) makes the depth draw non-degenerate, and the
draw 1 moves the bottom to 411 km — while the cost is still 0. -/
theorem vary_model_zero_errors_cex :
    vary_model em410 0 0 (some (600 * km)) [0, 1] =
      some ⟨em410', 0, [], 0, 0, false, false⟩ ∧
    em410' ≠ em410 := by
  constructor
  · norm_num [vary_model, layersLoop, velLoop, depthLoop, mantleOverride,
      factorD, pyTruncKm, discontUnc, dlGuard, km, Layer.bumpMtopVp,
      Material.addVel, Layer.acceptVelTop, Layer.acceptVelBot, em410, em410']
  · norm_num [em410, em410', Layer.mk.injEq]

/-- C3 (amended): for reference models whose layers all lie above the
hardcoded bands — top depth at most 200 km (velocity override) and bottom
depth below 410 km (discontinuity depth uncertainty) — and are well formed
(ordered depths, aliased materials when homogeneous, non-decreasing
velocity within layers and across interfaces), `vary_model` with
`err_depth = err_velocities = 0` returns cost 0 and a variant numerically
identical to the input, consuming two draws per layer. -/
theorem vary_model_zero_errors_identity (em : List Layer) (tape : List ℚ)
    (hwf : ∀ l ∈ em, zeroWF l)
    (hchain : List.Chain' (fun a b => a.mbot.vp ≤ b.mtop.vp) em)
    (hlen : 2 * em.length ≤ tape.length) :
    vary_model em 0 0 (some (600 * km)) tape =
      some ⟨em, 0, tape.drop (2 * em.length), 0, 0, false, false⟩ :=
  layersLoop_zero_id em none 0 tape hwf hchain
    (by intro ll b hll hb; cases hll) hlen

/-- C3 witness: the zero-error identity evaluated on the shallow two-layer
model `emW`. -/
theorem vary_model_zero_errors_identity_witness :
    vary_model emW 0 0 (some (600 * km)) [0, 0, 0, 0] = some outW := by
  have h := vary_model_zero_errors_identity emW [0, 0, 0, 0]
    (by
      intro l hl
      simp only [emW, List.mem_cons, List.not_mem_nil, or_false] at hl
      rcases hl with rfl | rfl
      · norm_num [zeroWF, km]
      · norm_num [zeroWF, km])
    (by
      simp only [emW, List.chain'_cons, List.chain'_singleton, and_true]
      norm_num)
    (by norm_num [emW])
  rw [h]
  norm_num [emW, outW]

/-- C4 counterexample: the cost does not equal the number of rejected
draws.  On the two-layer model `emW` with `err_velocities = 1`, the tape
`[0, 0, -1, 0, 0]` produces exactly one rejected draw (the second layer's
velocity draw -1), yet the returned cost is 2: the velocity retry counter
is added once at velocity acceptance and again at depth acceptance
(`count` is not reset between lines 450 and 474). -/
theorem vary_model_cost_double_count_cex :
    vary_model emW 0 1 (some (600 * km)) [0, 0, -1, 0, 0] = some outC4 ∧
    outC4.cost = 2 ∧ outC4.vRej + outC4.dRej = 1 ∧ (2 : Nat) ≠ 1 := by
  refine ⟨?_, rfl, rfl, by norm_num⟩
  norm_num [vary_model, layersLoop, velLoop, depthLoop, mantleOverride,
    factorD, pyTruncKm, discontUnc, dlGuard, km, Layer.bumpMtopVp,
    Material.addVel, Layer.acceptVelTop, Layer.acceptVelBot, emW, outC4]

/-- C4 (amended): the cost returned by `vary_model` is a non-negative
integer, zero when no draw was rejected; absent the 1000-retry break and
the depth-limit truncation, each rejected depth redraw contributes exactly
one and each rejected velocity redraw exactly two (the velocity retry
counter is added again at depth acceptance), so the returned cost equals
2 * (velocity rejections) + (depth rejections). -/
theorem vary_model_cost_formula (em : List Layer) (errD errV : Rat)
    (dl : Option ℚ) (tape : List ℚ) (out : RunOut)
    (hrun : vary_model em errD errV dl tape = some out)
    (hv : out.vbroke = false) (hd : out.dlbroke = false) :
    out.cost = 2 * out.vRej + out.dRej := by
  have h := layersLoop_cost_formula errD dl em none errV 0 0 tape out hrun hv hd
  omega

/-- C4 witness: the amended cost formula on the counterexample run:
cost 2 = 2 * 1 velocity rejection + 0 depth rejections. -/
theorem vary_model_cost_formula_witness :
    outC4.cost = 2 * outC4.vRej + outC4.dRej :=
  vary_model_cost_formula emW 0 1 (some (600 * km)) [0, 0, -1, 0, 0] outC4
    (by
      norm_num [vary_model, layersLoop, velLoop, depthLoop, mantleOverride,
        factorD, pyTruncKm, discontUnc, dlGuard, km, Layer.bumpMtopVp,
        Material.addVel, Layer.acceptVelTop, Layer.acceptVelBot, emW, outC4])
    rfl rfl

/-- C5: whenever `ensemble_earthmodel` terminates it returns exactly
`num_vary` variants: the first `num_vary` accepted results (cost at most
20) of successive `vary_model` calls on the same reference model, in
acceptance order; every member of the result is such an accepted variant,
and variants with cost above 20 never appear. -/
theorem ensemble_count_and_acceptance (ref : List Layer) (numVary : Nat)
    (errD errV : ℚ) (dl : Option ℚ) (fuel : Nat) (tape : List ℚ)
    (res : List (List Layer))
    (hrun : ensemble_earthmodel ref numVary errD errV dl fuel tape = some res) :
    res.length = numVary ∧
    res = (acceptedRuns ref errD errV dl fuel tape).take numVary ∧
    ∀ m ∈ res, ∃ cost, (m, cost) ∈ varyRuns ref errD errV dl fuel tape ∧
      cost ≤ 20 := by
  have hmem :=
    ensemble_members_accepted ref numVary errD errV dl fuel tape res hrun
  unfold ensemble_earthmodel at hrun
  cases he : ensembleLoop ref errD errV dl numVary fuel 0 [] tape with
  | none =>
    rw [he] at hrun
    cases hrun
  | some p =>
    rw [he] at hrun
    simp only [Option.map_some', Option.some.injEq] at hrun
    subst hrun
    obtain ⟨h1, h2⟩ := ensembleLoop_spec ref errD errV dl numVary fuel 0 []
      tape p.1 p.2 (by rw [he])
    refine ⟨?_, ?_, hmem⟩
    · rw [h2]
      simp
    · rw [h1]
      simp

/-- C5 witness: the zero-error run on `emW` returns exactly one variant. -/
theorem ensemble_count_and_acceptance_witness :
    ([emW] : List (List Layer)).length = 1 :=
  (ensemble_count_and_acceptance emW 1 0 0 (some (600 * km)) 1 [0, 0, 0, 0]
    [emW]
    (by
      norm_num [ensemble_earthmodel, ensembleLoop, vary_model, layersLoop,
        velLoop, depthLoop, mantleOverride, factorD, pyTruncKm, discontUnc,
        dlGuard, km, Layer.bumpMtopVp, Material.addVel, Layer.acceptVelTop,
        Layer.acceptVelBot, emW])).1

end Heart
